import Mathlib

/-!
A verification development for the timesheet-bot script (`src/app.js`).

The file shallow-embeds the self-contained core of the bot: the regex-based
duration extraction of `parseTogglPdf`, the rounding of
`roundToNearestMinute`, the message construction of `formatTimeMessage`,
the weekly tracker state with `resetWeeklyTracker`, and the pure decision
logic of the `message` event handler.  Report text is modelled as
`List Char`; the chat platform, file download and pdf text extraction are
external collaborators and enter the model as oracle inputs
(`Effects`).  Machine numbers in the script stay far below 2^53, so
`Nat` models JavaScript number arithmetic exactly on the values involved.
-/

namespace TimesheetBot

/-! ## Character classes of the JavaScript regexes -/

/-- JavaScript `\s` (the `WhiteSpace` and `LineTerminator` productions),
as a predicate on code points. -/
def jsSpaceNat (n : Nat) : Bool :=
  decide ((9 ≤ n ∧ n ≤ 13) ∨ n = 32 ∨ n = 160 ∨ n = 0x1680 ∨
    (0x2000 ≤ n ∧ n ≤ 0x200a) ∨ n = 0x2028 ∨ n = 0x2029 ∨ n = 0x202f ∨
    n = 0x205f ∨ n = 0x3000 ∨ n = 0xfeff)

def isJsSpace (c : Char) : Bool := jsSpaceNat c.toNat

/-- JavaScript `\d`, the ASCII digits. -/
def digitNat (n : Nat) : Bool := decide (48 ≤ n ∧ n ≤ 57)

def isDigitCh (c : Char) : Bool := digitNat c.toNat

/-- The character class `[:\s]` of the v2 total-hours regex. -/
def isSepCh (c : Char) : Bool := c.toNat == 58 || jsSpaceNat c.toNat

/-- Case-insensitive comparison of a text character `c` against a
lowercase ASCII pattern letter `p`, as performed by a `/i` regex:
`c` matches iff it is `p` itself or its ASCII uppercase form.  (Regex
canonicalisation never lets a non-ASCII character match an ASCII
pattern letter.) -/
def ciEq (p c : Char) : Bool := c == p || c.toNat + 32 == p.toNat

/-- Pointwise case-insensitive equality of a text fragment with a
lowercase pattern word. -/
def ciListEq : List Char → List Char → Bool
  | [], [] => true
  | p :: ps, c :: cs => ciEq p c && ciListEq ps cs
  | _, _ => false

/-! ## Substring utilities (JS `includes` / `endsWith` / `toLowerCase`) -/

def isPrefixL : List Char → List Char → Bool
  | [], _ => true
  | _ :: _, [] => false
  | a :: as, b :: bs => a == b && isPrefixL as bs

def listContains (needle : List Char) : List Char → Bool
  | [] => isPrefixL needle []
  | b :: bs => isPrefixL needle (b :: bs) || listContains needle bs

def isSuffixL (needle hay : List Char) : Bool :=
  isPrefixL needle.reverse hay.reverse

/-- JavaScript `String.prototype.toLowerCase`, restricted to the code
points whose lowercase form is a single ASCII character: the ASCII
uppercase letters and U+212A KELVIN SIGN (which lowercases to `k`).
All other characters are left unchanged; no other code point has a case
mapping that can produce characters of the ASCII search words the script
uses. -/
def jsLowerChar (c : Char) : Char :=
  if 65 ≤ c.toNat ∧ c.toNat ≤ 90 then Char.ofNat (c.toNat + 32)
  else if c.toNat = 0x212a then 'k'
  else c

def jsLower (s : List Char) : List Char := s.map jsLowerChar

/-! ## Rounding (`roundToNearestMinute`, src/app.js lines 254-258) -/

structure RoundedTime where
  hours : Nat
  minutes : Nat
deriving DecidableEq, Repr

/-- Rounding, `roundToNearestMinute(hours, minutes, seconds)`: total whole minutes
plus one when `seconds >= 30`, split back by `Math.floor(_ / 60)` and
`% 60` (exact on these magnitudes, so `Nat` division and remainder). -/
def roundToNearestMinute (hours minutes seconds : Nat) : RoundedTime :=
  let totalMinutes := hours * 60 + minutes + (if 30 ≤ seconds then 1 else 0)
  ⟨totalMinutes / 60, totalMinutes % 60⟩

/-! ## Message formatting (`formatTimeMessage`, src/app.js lines 260-267) -/

/-- The `timeStr` accumulation inside `formatTimeMessage`: the hours
clause when `hours > 0`, the minutes clause when `minutes > 0` joined by
a space when something precedes it, and the fallback `0 minutes` when
the string is still empty. -/
def timeStr (hours minutes : Nat) : String :=
  let s1 : String :=
    if hours > 0 then toString hours ++ " hour" ++ (if hours ≠ 1 then "s" else "")
    else ""
  let s2 : String :=
    if minutes > 0 then
      (if s1 ≠ "" then s1 ++ " " else s1) ++ toString minutes ++ " minute" ++
        (if minutes ≠ 1 then "s" else "")
    else s1
  if s2 = "" then "0 minutes" else s2

/-- Formatter, `formatTimeMessage(employeeName, roundedTime, dateRange)`. -/
def formatTimeMessage (employeeName : String) (roundedTime : RoundedTime)
    (dateRange : String) : String :=
  employeeName ++ "\x27s time for week of " ++ dateRange ++ ": *" ++
    timeStr roundedTime.hours roundedTime.minutes ++ "*"

/-! ## The total-hours regex (src/app.js line 244)

`/TOTAL\s*HOURS[:\s]*(\d{1,3}):(\d{2}):(\d{2})/i` — matched by scanning
start positions left to right; at a given position every quantifier is
forced (each starred class is disjoint from the character that must
follow it, and the `\d{1,3}` group must be followed by `:`), so a
first-match backtracking search reduces to the deterministic matcher
below. -/

def totalWord : List Char := ['t', 'o', 't', 'a', 'l']

def hoursWord : List Char := ['h', 'o', 'u', 'r', 's']

/-- Strip a case-insensitively matching occurrence of the lowercase
pattern word `pat` from the front of `cs`. -/
def stripCI : List Char → List Char → Option (List Char)
  | [], cs => some cs
  | _ :: _, [] => none
  | p :: ps, c :: cs => if ciEq p c then stripCI ps cs else none

/-- Value of `parseInt(_, 10)` on a list of ASCII digits. -/
def digitsVal (ds : List Char) : Nat :=
  ds.foldl (fun a c => a * 10 + (c.toNat - 48)) 0

/-- Match the `:(\d{2}):(\d{2})` tail of the total-hours regex at the
front of `cs`, returning the minutes and seconds values. -/
def tailMMSS (cs : List Char) : Option (Nat × Nat) :=
  match cs with
  | c0 :: m1 :: m2 :: c3 :: s1 :: s2 :: _ =>
    if c0 = ':' ∧ isDigitCh m1 ∧ isDigitCh m2 ∧ c3 = ':' ∧
        isDigitCh s1 ∧ isDigitCh s2 then
      some (digitsVal [m1, m2], digitsVal [s1, s2])
    else none
  | _ => none

/-- Attempt the total-hours pattern at the current position, returning
the three captured numbers. -/
def matchTotalAt (cs : List Char) : Option (Nat × Nat × Nat) :=
  match stripCI totalWord cs with
  | none => none
  | some r1 =>
    match stripCI hoursWord (r1.dropWhile isJsSpace) with
    | none => none
    | some r2 =>
      let r3 := r2.dropWhile isSepCh
      let hd := r3.takeWhile isDigitCh
      match tailMMSS (r3.dropWhile isDigitCh) with
      | none => none
      | some (mm, ss) =>
        if 1 ≤ hd.length ∧ hd.length ≤ 3 then some (digitsVal hd, mm, ss)
        else none

/-- Scan of `text.match(totalHoursRegex)`: first matching position, scanning
left to right. -/
def findTotal : List Char → Option (Nat × Nat × Nat)
  | [] => matchTotalAt []
  | c :: cs =>
    match matchTotalAt (c :: cs) with
    | some v => some v
    | none => findTotal cs

/-! ## The date-range regex (src/app.js line 249)

`/(\d{2}\/\d{2}\/\d{4})\s*[-]\s*(\d{2}\/\d{2}\/\d{4})/` — again every
quantifier is forced, so the scan below gives the semantics of the regex. -/

/-- Match `(\d{2}\/\d{2}\/\d{4})` at the front of `cs`, returning the
captured ten characters and the remainder. -/
def takeDate (cs : List Char) : Option (List Char × List Char) :=
  match cs with
  | a1 :: a2 :: k1 :: b1 :: b2 :: k2 :: c1 :: c2 :: c3 :: c4 :: rest =>
    if k1 = '/' ∧ k2 = '/' ∧ isDigitCh a1 ∧ isDigitCh a2 ∧ isDigitCh b1 ∧
        isDigitCh b2 ∧ isDigitCh c1 ∧ isDigitCh c2 ∧ isDigitCh c3 ∧
        isDigitCh c4 then
      some ([a1, a2, '/', b1, b2, '/', c1, c2, c3, c4], rest)
    else none
  | _ => none

/-- Attempt the date-range pattern at the current position, returning
the two captured groups. -/
def matchDateAt (cs : List Char) : Option (List Char × List Char) :=
  match takeDate cs with
  | none => none
  | some (g1, r1) =>
    match r1.dropWhile isJsSpace with
    | [] => none
    | c :: r2 =>
      if c = '-' then
        match takeDate (r2.dropWhile isJsSpace) with
        | none => none
        | some (g2, _) => some (g1, g2)
      else none

/-- Scan of `text.match(dateRangeRegex)`: first matching position. -/
def findDate : List Char → Option (List Char × List Char)
  | [] => matchDateAt []
  | c :: cs =>
    match matchDateAt (c :: cs) with
    | some v => some v
    | none => findDate cs

/-! ## `parseTogglPdf` (src/app.js lines 241-252) -/

structure TimeData where
  hours : Nat
  minutes : Nat
  seconds : Nat
  dateRange : String
deriving DecidableEq, Repr

/-- The date-range label: `${m[1]} - ${m[2]}` on a match, the `this
week` fallback otherwise. -/
def dateRangeOf (text : List Char) : String :=
  match findDate text with
  | some (g1, g2) => String.mk g1 ++ " - " ++ String.mk g2
  | none => "this week"

/-- The pure text-analysis part of `parseTogglPdf`, applied to the text
extracted from the pdf: the total-hours match (throwing when absent) and
the independent date-range match with its `this week` fallback. -/
def parseTogglText (text : List Char) : Except String TimeData :=
  match findTotal text with
  | none => Except.error "Could not find TOTAL HOURS in the PDF"
  | some (h, m, s) =>
    Except.ok { hours := h, minutes := m, seconds := s,
                dateRange := dateRangeOf text }

/-- Full `parseTogglPdf(pdfBuffer)`: pdf-parse text extraction (an external
collaborator, supplied as the oracle `extract`) followed by the text
analysis; a rejected extraction propagates its own error. -/
def parseTogglPdf (extract : List Nat → Except String String)
    (pdfBuffer : List Nat) : Except String TimeData :=
  match extract pdfBuffer with
  | Except.error e => Except.error e
  | Except.ok text => parseTogglText text.data

/-! ## Weekly tracker (src/app.js lines 216-227) -/

structure TrackerState where
  timesheetReceivedThisWeek : Bool
  lastTimesheetDate : Option Nat
deriving DecidableEq, Repr

/-- The module-level initial values of the two tracker variables. -/
def initialTracker : TrackerState :=
  { timesheetReceivedThisWeek := false, lastTimesheetDate := none }

/-- Reset, `resetWeeklyTracker()`: set both variables back to their initial
values, regardless of the current state. -/
def resetWeeklyTracker (_ : TrackerState) : TrackerState :=
  { timesheetReceivedThisWeek := false, lastTimesheetDate := none }

/-- Day test `isFriday()`: `new Date().getDay() === 5`, on the current day-of-week
number. -/
def isFriday (day : Nat) : Bool := day == 5

/-! ## The `message` event handler (src/app.js lines 277-305) -/

structure SlackFile where
  name : String
  mimetype : String
deriving DecidableEq, Repr

structure MessageEvent where
  files : List SlackFile
  channel : String
deriving DecidableEq, Repr

structure Config where
  employeeName : String
  hrUserId : String
deriving DecidableEq, Repr

/-- A successfully delivered `chat.postMessage` call. -/
structure Post where
  channel : String
  text : String
deriving DecidableEq, Repr

/-- Oracles for the awaited external calls of one handler run:
the file download, the pdf text extraction, whether the
`chat.postMessage` to HR throws (and with what message), and the
`new Date()` timestamp taken after the HR post.  The notice, confirm
and catch-clause posts back to the sender are modelled as always
delivered; their own failures do not influence the tracker or the HR
relay. -/
structure Effects where
  download : Except String (List Nat)
  extract : List Nat → Except String String
  hrPostError : Option String
  now : Nat

/-- Pdf test: `file.mimetype === "application/pdf"` or
`file.name.toLowerCase().endsWith(".pdf")`. -/
def isPdfFile (f : SlackFile) : Bool :=
  f.mimetype == "application/pdf" ||
    isSuffixL ".pdf".data (jsLower f.name.data)

/-- The recognized-filename check: the lowercased name contains
`toggl`, `track` or `summary`. -/
def isTogglExport (name : String) : Bool :=
  let fileName := jsLower name.data
  listContains "toggl".data fileName || listContains "track".data fileName ||
    listContains "summary".data fileName

/-- Catch clause: `Error: ${error.message}` back to the sender when
`event.channel` is truthy. -/
def errorPosts (ev : MessageEvent) (msg : String) : List Post :=
  if ev.channel = "" then [] else [⟨ev.channel, "Error: " ++ msg⟩]

/-- One run of the `message` event handler, as a pure function from the
event, the day of week, the `FRIDAY_ONLY` policy flag, the external-call
oracles and the current tracker state to the new tracker state and the
list of delivered posts, in order. -/
def handleMessage (cfg : Config) (fridayOnly : Bool) (day : Nat)
    (eff : Effects) (ev : MessageEvent) (st : TrackerState) :
    TrackerState × List Post :=
  if ev.files.isEmpty then (st, [])
  else
    match ev.files.find? isPdfFile with
    | none => (st, [])
    | some pdfFile =>
      if ¬ isTogglExport pdfFile.name then (st, [])
      else if fridayOnly && !(isFriday day) then
        (st, [⟨ev.channel, "I received the timesheet, but I only process on Fridays!"⟩])
      else
        match eff.download with
        | Except.error e => (st, errorPosts ev e)
        | Except.ok pdfBuffer =>
          match parseTogglPdf eff.extract pdfBuffer with
          | Except.error e => (st, errorPosts ev e)
          | Except.ok timeData =>
            let roundedTime :=
              roundToNearestMinute timeData.hours timeData.minutes timeData.seconds
            let hrMessage :=
              formatTimeMessage cfg.employeeName roundedTime timeData.dateRange
            match eff.hrPostError with
            | some e => (st, errorPosts ev e)
            | none =>
              ({ timesheetReceivedThisWeek := true,
                 lastTimesheetDate := some eff.now },
               [⟨cfg.hrUserId, hrMessage⟩,
                ⟨ev.channel,
                 "I\x27ve forwarded " ++ cfg.employeeName ++
                   "\x27s time to Erickia:\n> " ++ hrMessage⟩])

/-! ## Auxiliary facts about strings and lists -/

theorem str_append_ne_empty_right (s : String) {t : String} (h : t ≠ "") :
    s ++ t ≠ "" := by
  obtain ⟨sd⟩ := s
  obtain ⟨td⟩ := t
  intro hc
  apply h
  have h2 := congrArg String.data hc
  rw [String.data_append] at h2
  have h2b : sd ++ td = ([] : List Char) := h2
  have h3 : td = [] := (List.append_eq_nil.mp h2b).2
  subst h3
  rfl

theorem str_append_ne_empty_left {s : String} (t : String) (h : s ≠ "") :
    s ++ t ≠ "" := by
  obtain ⟨sd⟩ := s
  obtain ⟨td⟩ := t
  intro hc
  apply h
  have h2 := congrArg String.data hc
  rw [String.data_append] at h2
  have h2b : sd ++ td = ([] : List Char) := h2
  have h3 : sd = [] := (List.append_eq_nil.mp h2b).1
  subst h3
  rfl

theorem str_empty_append (s : String) : "" ++ s = s := by
  obtain ⟨sd⟩ := s
  show String.mk ([] ++ sd) = String.mk sd
  rw [List.nil_append]

theorem str_append_empty (s : String) : s ++ "" = s := by
  obtain ⟨sd⟩ := s
  show String.mk (sd ++ []) = String.mk sd
  rw [List.append_nil]

theorem dropWhile_cons_false {p : Char → Bool} {c : Char} (l : List Char)
    (h : p c = false) : (c :: l).dropWhile p = c :: l := by
  simp [List.dropWhile, h]

theorem dropWhile_append_all {p : Char → Bool} {l : List Char} (r : List Char)
    (h : ∀ c ∈ l, p c = true) : (l ++ r).dropWhile p = r.dropWhile p := by
  induction l with
  | nil => rfl
  | cons c l ih =>
    have hc := h c (List.mem_cons_self c l)
    rw [List.cons_append]
    simp only [List.dropWhile, hc]
    exact ih fun x hx => h x (List.mem_cons_of_mem c hx)

theorem takeWhile_append_cons {p : Char → Bool} {l : List Char} {c : Char}
    (r : List Char) (hl : ∀ x ∈ l, p x = true) (hc : p c = false) :
    (l ++ c :: r).takeWhile p = l := by
  induction l with
  | nil => simp [List.takeWhile, hc]
  | cons a l ih =>
    have ha := hl a (List.mem_cons_self a l)
    rw [List.cons_append]
    simp only [List.takeWhile, ha]
    rw [ih fun x hx => hl x (List.mem_cons_of_mem a hx)]

theorem dropWhile_append_cons {p : Char → Bool} {l : List Char} {c : Char}
    (r : List Char) (hl : ∀ x ∈ l, p x = true) (hc : p c = false) :
    (l ++ c :: r).dropWhile p = c :: r := by
  rw [dropWhile_append_all (c :: r) hl, dropWhile_cons_false r hc]

/-! ## Character-class facts -/

theorem jsSpaceNat_false_mid {n : Nat} (h1 : 33 ≤ n) (h2 : n ≤ 159) :
    jsSpaceNat n = false := by
  simp only [jsSpaceNat, decide_eq_false_iff_not]
  omega

theorem ciEq_elim {p c : Char} (h : ciEq p c = true) :
    c = p ∨ c.toNat + 32 = p.toNat := by
  simp only [ciEq, Bool.or_eq_true, beq_iff_eq] at h
  rcases h with h | h
  · exact Or.inl h
  · exact Or.inr h

theorem not_space_of_ciEq_h {c : Char} (h : ciEq 'h' c = true) :
    isJsSpace c = false := by
  rcases ciEq_elim h with h | h
  · rw [h]
    decide
  · have h104 : ('h').toNat = 104 := rfl
    rw [h104] at h
    show jsSpaceNat c.toNat = false
    exact jsSpaceNat_false_mid (by omega) (by omega)

theorem not_sep_of_digit {c : Char} (h : isDigitCh c = true) :
    isSepCh c = false := by
  simp only [isDigitCh, digitNat, decide_eq_true_eq] at h
  simp only [isSepCh, Bool.or_eq_false_iff]
  constructor
  · simp only [beq_eq_false_iff_ne, ne_eq]
    omega
  · exact jsSpaceNat_false_mid (by omega) (by omega)

/-! ## Decomposition and evaluation facts for the matchers -/

theorem stripCI_eq_some {pat cs r : List Char} (h : stripCI pat cs = some r) :
    ∃ t, cs = t ++ r ∧ ciListEq pat t = true := by
  induction pat generalizing cs with
  | nil =>
    simp only [stripCI, Option.some.injEq] at h
    refine ⟨[], ?_, rfl⟩
    rw [List.nil_append]
    exact h
  | cons p ps ih =>
    cases cs with
    | nil => simp [stripCI] at h
    | cons c cs =>
      by_cases hc : ciEq p c = true
      · rw [stripCI, if_pos hc] at h
        obtain ⟨t, ht, hci⟩ := ih h
        exact ⟨c :: t, by rw [List.cons_append, ht], by simp [ciListEq, hc, hci]⟩
      · rw [stripCI, if_neg hc] at h
        cases h

theorem stripCI_of_ciListEq {pat t : List Char} (h : ciListEq pat t = true)
    (r : List Char) : stripCI pat (t ++ r) = some r := by
  induction pat generalizing t with
  | nil =>
    cases t with
    | nil => rfl
    | cons c ts => simp [ciListEq] at h
  | cons p ps ih =>
    cases t with
    | nil => simp [ciListEq] at h
    | cons c ts =>
      simp only [ciListEq, Bool.and_eq_true] at h
      rw [List.cons_append, stripCI, if_pos h.1]
      exact ih h.2

theorem ciListEq_cons {p : Char} {ps t : List Char}
    (h : ciListEq (p :: ps) t = true) :
    ∃ c ts, t = c :: ts ∧ ciEq p c = true ∧ ciListEq ps ts = true := by
  cases t with
  | nil => simp [ciListEq] at h
  | cons c ts =>
    simp only [ciListEq, Bool.and_eq_true] at h
    exact ⟨c, ts, rfl, h.1, h.2⟩

theorem tailMMSS_eq_some {cs : List Char} {v : Nat × Nat}
    (h : tailMMSS cs = some v) :
    ∃ m1 m2 s1 s2 post, cs = ':' :: m1 :: m2 :: ':' :: s1 :: s2 :: post ∧
      isDigitCh m1 = true ∧ isDigitCh m2 = true ∧
      isDigitCh s1 = true ∧ isDigitCh s2 = true := by
  rcases cs with _ | ⟨c0, _ | ⟨m1, _ | ⟨m2, _ | ⟨c3, _ | ⟨s1, _ | ⟨s2, post⟩⟩⟩⟩⟩⟩ <;>
    simp [tailMMSS] at h
  obtain ⟨⟨h0, hm1, hm2, h3, hs1, hs2⟩, hv⟩ := h
  subst h0
  subst h3
  exact ⟨m1, m2, s1, s2, post, rfl, hm1, hm2, hs1, hs2⟩

/-! ## Declarative reading of the total-hours pattern

`LocalTotal cs` says the pattern occurs at the very start of `cs`:
a case-insensitive `TOTAL`, whitespace, a case-insensitive `HOURS`,
colon/whitespace filler, a 1-3 digit hour group, and `:MM:SS` with
exactly-two-digit minute and second groups.  `TotalPat cs` says the
pattern occurs somewhere in `cs`. -/

def LocalTotal (cs : List Char) : Prop :=
  ∃ t1 ws t2 sep hd m1 m2 s1 s2 post,
    cs = t1 ++ ws ++ t2 ++ sep ++ hd ++
      ':' :: m1 :: m2 :: ':' :: s1 :: s2 :: post ∧
    ciListEq totalWord t1 = true ∧ (∀ c ∈ ws, isJsSpace c = true) ∧
    ciListEq hoursWord t2 = true ∧ (∀ c ∈ sep, isSepCh c = true) ∧
    (∀ c ∈ hd, isDigitCh c = true) ∧ 1 ≤ hd.length ∧ hd.length ≤ 3 ∧
    isDigitCh m1 = true ∧ isDigitCh m2 = true ∧
    isDigitCh s1 = true ∧ isDigitCh s2 = true

def TotalPat (cs : List Char) : Prop :=
  ∃ pre rest, cs = pre ++ rest ∧ LocalTotal rest

theorem local_of_matchTotalAt {cs : List Char} {v : Nat × Nat × Nat}
    (h : matchTotalAt cs = some v) : LocalTotal cs := by
  cases e1 : stripCI totalWord cs with
  | none => simp [matchTotalAt, e1] at h
  | some r1 =>
    cases e2 : stripCI hoursWord (r1.dropWhile isJsSpace) with
    | none => simp [matchTotalAt, e1, e2] at h
    | some r2 =>
      cases e3 : tailMMSS ((r2.dropWhile isSepCh).dropWhile isDigitCh) with
      | none => simp [matchTotalAt, e1, e2, e3] at h
      | some ms =>
        obtain ⟨mm, ss⟩ := ms
        simp only [matchTotalAt, e1, e2, e3] at h
        by_cases hg : 1 ≤ ((r2.dropWhile isSepCh).takeWhile isDigitCh).length ∧
            ((r2.dropWhile isSepCh).takeWhile isDigitCh).length ≤ 3
        · obtain ⟨t1, hcs1, ht1⟩ := stripCI_eq_some e1
          obtain ⟨t2, hX, ht2⟩ := stripCI_eq_some e2
          obtain ⟨m1, m2, s1, s2, post, htail, hm1, hm2, hs1, hs2⟩ :=
            tailMMSS_eq_some e3
          refine ⟨t1, r1.takeWhile isJsSpace, t2, r2.takeWhile isSepCh,
            (r2.dropWhile isSepCh).takeWhile isDigitCh, m1, m2, s1, s2, post,
            ?_, ht1, fun c hc => List.mem_takeWhile_imp hc, ht2,
            fun c hc => List.mem_takeWhile_imp hc,
            fun c hc => List.mem_takeWhile_imp hc, hg.1, hg.2,
            hm1, hm2, hs1, hs2⟩
          rw [hcs1]
          conv_lhs => rw [← List.takeWhile_append_dropWhile isJsSpace r1]
          rw [hX, ← htail]
          conv_lhs =>
            rw [← List.takeWhile_append_dropWhile isSepCh r2,
              ← List.takeWhile_append_dropWhile isDigitCh (r2.dropWhile isSepCh)]
          simp [List.append_assoc]
        · rw [if_neg hg] at h
          cases h

theorem matchTotalAt_isSome_of_local {cs : List Char} (h : LocalTotal cs) :
    ∃ v, matchTotalAt cs = some v := by
  obtain ⟨t1, ws, t2, sep, hd, m1, m2, s1, s2, post, hcs, ht1, hws, ht2, hsep,
    hhd, hlen1, hlen3, hm1, hm2, hs1, hs2⟩ := h
  subst hcs
  have hassoc : t1 ++ ws ++ t2 ++ sep ++ hd ++ ':' :: m1 :: m2 :: ':' :: s1 :: s2 :: post
      = t1 ++ (ws ++ (t2 ++ (sep ++ (hd ++ ':' :: m1 :: m2 :: ':' :: s1 :: s2 :: post)))) := by
    simp [List.append_assoc]
  rw [hassoc]
  have e1 : stripCI totalWord
      (t1 ++ (ws ++ (t2 ++ (sep ++ (hd ++ ':' :: m1 :: m2 :: ':' :: s1 :: s2 :: post))))) =
      some (ws ++ (t2 ++ (sep ++ (hd ++ ':' :: m1 :: m2 :: ':' :: s1 :: s2 :: post)))) :=
    stripCI_of_ciListEq ht1 _
  obtain ⟨c2, ts2, ht2e, hc2, _⟩ := ciListEq_cons ht2
  have e2 : (ws ++ (t2 ++ (sep ++ (hd ++ ':' :: m1 :: m2 :: ':' :: s1 :: s2 :: post)))).dropWhile
      isJsSpace = t2 ++ (sep ++ (hd ++ ':' :: m1 :: m2 :: ':' :: s1 :: s2 :: post)) := by
    rw [dropWhile_append_all _ hws, ht2e, List.cons_append]
    exact dropWhile_cons_false _ (not_space_of_ciEq_h hc2)
  have e3 : stripCI hoursWord
      (t2 ++ (sep ++ (hd ++ ':' :: m1 :: m2 :: ':' :: s1 :: s2 :: post))) =
      some (sep ++ (hd ++ ':' :: m1 :: m2 :: ':' :: s1 :: s2 :: post)) :=
    stripCI_of_ciListEq ht2 _
  obtain ⟨d, ds, hde⟩ : ∃ d ds, hd = d :: ds := by
    cases hd with
    | nil => simp at hlen1
    | cons d ds => exact ⟨d, ds, rfl⟩
  have e4 : (sep ++ (hd ++ ':' :: m1 :: m2 :: ':' :: s1 :: s2 :: post)).dropWhile
      isSepCh = hd ++ ':' :: m1 :: m2 :: ':' :: s1 :: s2 :: post := by
    rw [dropWhile_append_all _ hsep, hde, List.cons_append]
    exact dropWhile_cons_false _
      (not_sep_of_digit (hhd d (by rw [hde]; exact List.mem_cons_self d ds)))
  have e5 : (hd ++ ':' :: m1 :: m2 :: ':' :: s1 :: s2 :: post).takeWhile
      isDigitCh = hd := takeWhile_append_cons _ hhd (by decide)
  have e6 : (hd ++ ':' :: m1 :: m2 :: ':' :: s1 :: s2 :: post).dropWhile
      isDigitCh = ':' :: m1 :: m2 :: ':' :: s1 :: s2 :: post :=
    dropWhile_append_cons _ hhd (by decide)
  have e7 : tailMMSS (':' :: m1 :: m2 :: ':' :: s1 :: s2 :: post) =
      some (digitsVal [m1, m2], digitsVal [s1, s2]) := by
    rw [tailMMSS, if_pos ⟨rfl, hm1, hm2, rfl, hs1, hs2⟩]
  refine ⟨(digitsVal hd, digitsVal [m1, m2], digitsVal [s1, s2]), ?_⟩
  simp only [matchTotalAt, e1, e2, e3, e4, e5, e6, e7]
  rw [if_pos ⟨hlen1, hlen3⟩]

theorem matchTotalAt_isSome_iff_local {cs : List Char} :
    (∃ v, matchTotalAt cs = some v) ↔ LocalTotal cs :=
  ⟨fun ⟨_, h⟩ => local_of_matchTotalAt h, matchTotalAt_isSome_of_local⟩

/-! ## Scanning -/

theorem findTotal_isSome_iff {cs : List Char} :
    (∃ v, findTotal cs = some v) ↔ ∃ n, ∃ v, matchTotalAt (cs.drop n) = some v := by
  induction cs with
  | nil =>
    constructor
    · rintro ⟨v, hv⟩
      exact ⟨0, v, hv⟩
    · rintro ⟨n, v, hv⟩
      rw [List.drop_nil] at hv
      exact ⟨v, hv⟩
  | cons c cs ih =>
    constructor
    · rintro ⟨v, hv⟩
      rw [findTotal] at hv
      cases e : matchTotalAt (c :: cs) with
      | some w => exact ⟨0, w, e⟩
      | none =>
        rw [e] at hv
        obtain ⟨n, w, hw⟩ := ih.mp ⟨v, hv⟩
        exact ⟨n + 1, w, hw⟩
    · rintro ⟨n, v, hv⟩
      rw [findTotal]
      cases e : matchTotalAt (c :: cs) with
      | some w => exact ⟨w, rfl⟩
      | none =>
        cases n with
        | zero =>
          rw [List.drop_zero] at hv
          rw [e] at hv
          cases hv
        | succ n => exact ih.mpr ⟨n, v, hv⟩

theorem totalPat_iff_drop {cs : List Char} :
    TotalPat cs ↔ ∃ n, LocalTotal (cs.drop n) := by
  constructor
  · rintro ⟨pre, rest, rfl, h⟩
    exact ⟨pre.length, by rw [List.drop_left]; exact h⟩
  · rintro ⟨n, h⟩
    exact ⟨cs.take n, cs.drop n, (List.take_append_drop n cs).symm, h⟩

/-- The total-hours regex finds a match exactly when the declarative
pattern occurs in the text. -/
theorem findTotal_isSome_iff_totalPat {cs : List Char} :
    (∃ v, findTotal cs = some v) ↔ TotalPat cs := by
  rw [findTotal_isSome_iff, totalPat_iff_drop]
  constructor
  · rintro ⟨n, v, hv⟩
    exact ⟨n, local_of_matchTotalAt hv⟩
  · rintro ⟨n, h⟩
    obtain ⟨v, hv⟩ := matchTotalAt_isSome_of_local h
    exact ⟨n, v, hv⟩

theorem findTotal_eq_none_iff {cs : List Char} :
    findTotal cs = none ↔ ¬ TotalPat cs := by
  rw [← findTotal_isSome_iff_totalPat]
  cases h : findTotal cs with
  | none => simp
  | some v => simp

theorem findTotal_append_of_none {pre s : List Char}
    (h : ∀ n, n < pre.length → matchTotalAt (pre.drop n ++ s) = none) :
    findTotal (pre ++ s) = findTotal s := by
  induction pre with
  | nil => rw [List.nil_append]
  | cons c pre ih =>
    have h0 := h 0 (by simp)
    rw [List.drop_zero, List.cons_append] at h0
    rw [List.cons_append, findTotal, h0]
    exact ih fun n hn => by
      have := h (n + 1) (by simpa using hn)
      simpa using this

/-! ## Declarative reading of the date-range pattern -/

def DateGroup (g : List Char) : Prop :=
  ∃ a1 a2 b1 b2 c1 c2 c3 c4,
    g = [a1, a2, '/', b1, b2, '/', c1, c2, c3, c4] ∧
    isDigitCh a1 = true ∧ isDigitCh a2 = true ∧ isDigitCh b1 = true ∧
    isDigitCh b2 = true ∧ isDigitCh c1 = true ∧ isDigitCh c2 = true ∧
    isDigitCh c3 = true ∧ isDigitCh c4 = true

def LocalDate (cs : List Char) : Prop :=
  ∃ g1 ws1 ws2 g2 post,
    cs = g1 ++ ws1 ++ '-' :: (ws2 ++ g2 ++ post) ∧
    DateGroup g1 ∧ DateGroup g2 ∧
    (∀ c ∈ ws1, isJsSpace c = true) ∧ (∀ c ∈ ws2, isJsSpace c = true)

def DatePat (cs : List Char) : Prop :=
  ∃ pre rest, cs = pre ++ rest ∧ LocalDate rest

theorem takeDate_eq_some {cs : List Char} {g r : List Char}
    (h : takeDate cs = some (g, r)) : cs = g ++ r ∧ DateGroup g := by
  rcases cs with _ | ⟨a1, _ | ⟨a2, _ | ⟨k1, _ | ⟨b1, _ | ⟨b2, _ | ⟨k2, _ | ⟨c1,
    _ | ⟨c2, _ | ⟨c3, _ | ⟨c4, rest⟩⟩⟩⟩⟩⟩⟩⟩⟩⟩ <;> simp [takeDate] at h
  obtain ⟨⟨hk1, hk2, ha1, ha2, hb1, hb2, hc1, hc2, hc3, hc4⟩, hg, hr⟩ := h
  subst hk1
  subst hk2
  subst hg
  subst hr
  exact ⟨rfl, a1, a2, b1, b2, c1, c2, c3, c4, rfl,
    ha1, ha2, hb1, hb2, hc1, hc2, hc3, hc4⟩

theorem local_of_matchDateAt {cs : List Char} {v : List Char × List Char}
    (h : matchDateAt cs = some v) : LocalDate cs := by
  cases e1 : takeDate cs with
  | none => simp [matchDateAt, e1] at h
  | some p1 =>
    obtain ⟨g1, r1⟩ := p1
    cases e2 : r1.dropWhile isJsSpace with
    | nil => simp [matchDateAt, e1, e2] at h
    | cons c r2 =>
      by_cases hc : c = '-'
      · subst hc
        cases e3 : takeDate (r2.dropWhile isJsSpace) with
        | none => simp [matchDateAt, e1, e2, e3] at h
        | some p2 =>
          obtain ⟨g2, rest2⟩ := p2
          obtain ⟨hcs1, hg1⟩ := takeDate_eq_some e1
          obtain ⟨hcs3, hg2⟩ := takeDate_eq_some e3
          refine ⟨g1, r1.takeWhile isJsSpace, r2.takeWhile isJsSpace, g2, rest2,
            ?_, hg1, hg2, fun x hx => List.mem_takeWhile_imp hx,
            fun x hx => List.mem_takeWhile_imp hx⟩
          rw [hcs1]
          conv_lhs => rw [← List.takeWhile_append_dropWhile isJsSpace r1, e2]
          conv_lhs => rw [← List.takeWhile_append_dropWhile isJsSpace r2, hcs3]
          simp [List.append_assoc]
      · simp [matchDateAt, e1, e2, hc] at h

theorem findDate_eq_some_drop {cs : List Char} {v : List Char × List Char}
    (h : findDate cs = some v) : ∃ n, matchDateAt (cs.drop n) = some v := by
  induction cs with
  | nil => exact ⟨0, h⟩
  | cons c cs ih =>
    rw [findDate] at h
    cases e : matchDateAt (c :: cs) with
    | some w =>
      rw [e] at h
      simp only [Option.some.injEq] at h
      exact ⟨0, by rw [List.drop_zero, e, h]⟩
    | none =>
      rw [e] at h
      obtain ⟨n, hn⟩ := ih h
      exact ⟨n + 1, hn⟩

theorem datePat_of_findDate {cs : List Char} {v : List Char × List Char}
    (h : findDate cs = some v) : DatePat cs := by
  obtain ⟨n, hn⟩ := findDate_eq_some_drop h
  exact ⟨cs.take n, cs.drop n, (List.take_append_drop n cs).symm,
    local_of_matchDateAt hn⟩

theorem findDate_eq_none_of_not_datePat {cs : List Char} (h : ¬ DatePat cs) :
    findDate cs = none := by
  cases e : findDate cs with
  | none => rfl
  | some v => exact absurd (datePat_of_findDate e) h

/-! ## The duration phrase, in the terms of the spec

`hourClause`, `minuteClause` and `durationPhraseSpec` follow the wording
of the formatter contract (omit a zero clause, singular exactly at
quantity one, space-joined with hours first, literal `0 minutes` when
both are zero); they are the spec-side definitions against which the
`timeStr` accumulation of the code is compared. -/

def hourClause (h : Nat) : String :=
  toString h ++ (if h = 1 then " hour" else " hours")

def minuteClause (m : Nat) : String :=
  toString m ++ (if m = 1 then " minute" else " minutes")

def durationPhraseSpec (rt : RoundedTime) : String :=
  if rt.hours = 0 then
    (if rt.minutes = 0 then "0 minutes" else minuteClause rt.minutes)
  else if rt.minutes = 0 then hourClause rt.hours
  else hourClause rt.hours ++ " " ++ minuteClause rt.minutes

theorem hour_words_eq (h : Nat) :
    toString h ++ (" hour" ++ (if h ≠ 1 then "s" else "")) = hourClause h := by
  by_cases h1 : h = 1
  · subst h1
    rw [if_neg (fun hc => hc rfl), str_append_empty, hourClause, if_pos rfl]
  · rw [if_pos h1, (by decide : (" hour" ++ "s" : String) = " hours"),
      hourClause, if_neg h1]

theorem minute_words_eq (m : Nat) :
    toString m ++ (" minute" ++ (if m ≠ 1 then "s" else "")) = minuteClause m := by
  by_cases m1 : m = 1
  · subst m1
    rw [if_neg (fun hc => hc rfl), str_append_empty, minuteClause, if_pos rfl]
  · rw [if_pos m1, (by decide : (" minute" ++ "s" : String) = " minutes"),
      minuteClause, if_neg m1]

theorem timeStr_zero_zero : timeStr 0 0 = "0 minutes" := rfl

theorem timeStr_zero_pos (m : Nat) (hm : 0 < m) : timeStr 0 m = minuteClause m := by
  simp only [timeStr]
  rw [if_neg (by omega : ¬ (0:Nat) > 0), if_pos hm]
  rw [if_neg (show ¬(("" : String) ≠ "") from fun hc => hc rfl)]
  rw [str_empty_append]
  rw [if_neg (str_append_ne_empty_left _
    (str_append_ne_empty_right _ (by decide : (" minute" : String) ≠ "")))]
  rw [String.append_assoc, minute_words_eq]

theorem timeStr_pos_zero (h : Nat) (hh : 0 < h) : timeStr h 0 = hourClause h := by
  simp only [timeStr]
  rw [if_pos hh, if_neg (by omega : ¬ (0:Nat) > 0)]
  rw [if_neg (str_append_ne_empty_left _
    (str_append_ne_empty_right _ (by decide : (" hour" : String) ≠ "")))]
  rw [String.append_assoc, hour_words_eq]

theorem timeStr_pos_pos (h m : Nat) (hh : 0 < h) (hm : 0 < m) :
    timeStr h m = hourClause h ++ " " ++ minuteClause m := by
  simp only [timeStr]
  rw [if_pos hh, if_pos hm]
  rw [if_pos (str_append_ne_empty_left _
    (str_append_ne_empty_right _ (by decide : (" hour" : String) ≠ "")))]
  rw [if_neg (str_append_ne_empty_left _
    (str_append_ne_empty_right _ (by decide : (" minute" : String) ≠ "")))]
  rw [String.append_assoc _ " minute" _, String.append_assoc _ (toString m) _,
    minute_words_eq]
  rw [String.append_assoc _ " hour" _, hour_words_eq]

theorem timeStr_eq_phraseSpec (rt : RoundedTime) :
    timeStr rt.hours rt.minutes = durationPhraseSpec rt := by
  by_cases h0 : rt.hours = 0
  · by_cases m0 : rt.minutes = 0
    · rw [h0, m0, timeStr_zero_zero]
      unfold durationPhraseSpec
      rw [if_pos h0, if_pos m0]
    · rw [h0, timeStr_zero_pos _ (Nat.pos_of_ne_zero m0)]
      unfold durationPhraseSpec
      rw [if_pos h0, if_neg m0]
  · by_cases m0 : rt.minutes = 0
    · rw [m0, timeStr_pos_zero _ (Nat.pos_of_ne_zero h0)]
      unfold durationPhraseSpec
      rw [if_neg h0, if_pos m0]
    · rw [timeStr_pos_pos _ _ (Nat.pos_of_ne_zero h0) (Nat.pos_of_ne_zero m0)]
      unfold durationPhraseSpec
      rw [if_neg h0, if_neg m0]

/-! ## Claim theorems -/

/-- Claim C1: for hours in [0,999] and minutes, seconds in [0,59],
`roundToNearestMinute` returns `(T / 60, T % 60)` for
`T = hours*60 + minutes + (1 if seconds ≥ 30 else 0)`; seconds in [0,29]
leave the minute total unchanged, seconds in [30,59] add exactly one
minute, the minutes component is in [0,59], and overflow carries into
hours. -/
theorem claim_C1_rounding (h m s : Nat) (_hh : h ≤ 999) (_hm : m ≤ 59)
    (_hs : s ≤ 59) :
    (roundToNearestMinute h m s).hours =
      (h * 60 + m + (if 30 ≤ s then 1 else 0)) / 60 ∧
    (roundToNearestMinute h m s).minutes =
      (h * 60 + m + (if 30 ≤ s then 1 else 0)) % 60 ∧
    (roundToNearestMinute h m s).minutes ≤ 59 ∧
    (s ≤ 29 → 60 * (roundToNearestMinute h m s).hours +
      (roundToNearestMinute h m s).minutes = h * 60 + m) ∧
    (30 ≤ s → 60 * (roundToNearestMinute h m s).hours +
      (roundToNearestMinute h m s).minutes = h * 60 + m + 1) := by
  refine ⟨rfl, rfl, ?_, fun hle => ?_, fun hge => ?_⟩
  · show (h * 60 + m + (if 30 ≤ s then 1 else 0)) % 60 ≤ 59
    omega
  · show 60 * ((h * 60 + m + (if 30 ≤ s then 1 else 0)) / 60) +
      (h * 60 + m + (if 30 ≤ s then 1 else 0)) % 60 = h * 60 + m
    rw [if_neg (by omega : ¬ 30 ≤ s)]
    omega
  · show 60 * ((h * 60 + m + (if 30 ≤ s then 1 else 0)) / 60) +
      (h * 60 + m + (if 30 ≤ s then 1 else 0)) % 60 = h * 60 + m + 1
    rw [if_pos hge]
    omega

/-- Witness for C1: 0h 59m 30s satisfies the bounds and rounds to
1h 0m, with the minutes component in range. -/
theorem claim_C1_rounding_witness :
    roundToNearestMinute 0 59 30 = ⟨1, 0⟩ ∧
    (roundToNearestMinute 0 59 30).minutes ≤ 59 := by
  refine ⟨by decide, ?_⟩
  exact (claim_C1_rounding 0 59 30 (by decide) (by decide) (by decide)).2.2.1

/-- Claim C4: the duration phrase omits the hours clause when hours = 0
and the minutes clause when minutes = 0, pluralizes each present clause
(singular exactly at quantity 1), joins two present clauses with a
single space hours-first, and is exactly `0 minutes` when both are 0;
with the five boundary examples. -/
theorem claim_C4_phrase (h m : Nat) :
    (h = 0 → m = 0 → timeStr h m = "0 minutes") ∧
    (h = 0 → 0 < m → timeStr h m = minuteClause m) ∧
    (0 < h → m = 0 → timeStr h m = hourClause h) ∧
    (0 < h → 0 < m → timeStr h m = hourClause h ++ " " ++ minuteClause m) ∧
    timeStr 0 0 = "0 minutes" ∧ timeStr 1 0 = "1 hour" ∧
    timeStr 2 0 = "2 hours" ∧ timeStr 0 1 = "1 minute" ∧
    timeStr 1 1 = "1 hour 1 minute" := by
  refine ⟨?_, ?_, ?_, ?_, by decide, by decide, by decide, by decide, by decide⟩
  · rintro rfl rfl
    rfl
  · rintro rfl hm
    exact timeStr_zero_pos m hm
  · rintro hh rfl
    exact timeStr_pos_zero h hh
  · intro hh hm
    exact timeStr_pos_pos h m hh hm

/-- Witness for C4: the joined two-clause case at (2h, 3m). -/
theorem claim_C4_phrase_witness :
    timeStr 2 3 = hourClause 2 ++ " " ++ minuteClause 3 :=
  (claim_C4_phrase 2 3).2.2.2.1 (by decide) (by decide)

/-- Claim C5 counterexample: the claim says the message carries the
duration phrase with no adornment around it, but `formatTimeMessage`
wraps the phrase in asterisks. -/
theorem claim_C5_counterexample :
    formatTimeMessage "Roxie" ⟨0, 0⟩ "this week" ≠
      "Roxie\x27s time for week of this week: 0 minutes" ∧
    formatTimeMessage "Roxie" ⟨0, 0⟩ "this week" =
      "Roxie\x27s time for week of this week: *0 minutes*" :=
  ⟨by decide, by decide⟩

/-- Claim C5 (amended): for every employee display name,
RoundedDuration and date-range label, `formatTimeMessage` returns
exactly the single-line summary string: the name, the possessive
tail, the date range introduction, the date-range label, a colon and
the duration phrase of the formatter contract wrapped in asterisks. -/
theorem claim_C5_format (employeeName : String) (rt : RoundedTime)
    (dateRange : String) :
    formatTimeMessage employeeName rt dateRange =
      employeeName ++ "\x27s time for week of " ++ dateRange ++ ": *" ++
        durationPhraseSpec rt ++ "*" := by
  unfold formatTimeMessage
  rw [timeStr_eq_phraseSpec]

theorem findTotal_cons_of_match {cs : List Char} {v : Nat × Nat × Nat}
    (h : matchTotalAt cs = some v) : findTotal cs = some v := by
  cases cs with
  | nil => rw [findTotal, h]
  | cons c cs => rw [findTotal, h]

/-- Claim C2: `parseTogglPdf` fails with the marker-not-found error
exactly when the extracted text contains no occurrence of the
total-duration pattern (case-insensitive marker, flexible filler, 1-3
digit hours, exactly-2-digit minutes and seconds); in particular a text
whose only candidate value is the malformed `1:5:30` fails. -/
theorem claim_C2_parse_failure (text : List Char) :
    (parseTogglText text = Except.error "Could not find TOTAL HOURS in the PDF" ↔
      ¬ TotalPat text) ∧
    parseTogglText "Report TOTAL HOURS: 1:5:30 end".data =
      Except.error "Could not find TOTAL HOURS in the PDF" := by
  constructor
  · rw [← findTotal_eq_none_iff]
    constructor
    · intro hp
      cases e : findTotal text with
      | none => rfl
      | some v =>
        obtain ⟨h, m, s⟩ := v
        simp [parseTogglText, e] at hp
    · intro hn
      simp [parseTogglText, hn]
  · rfl

/-- Witness for C2: applying the equivalence at a concrete marker-free
text yields that the declarative pattern does not occur in it. -/
theorem claim_C2_parse_failure_witness :
    ¬ TotalPat "Weekly report, no totals".data :=
  (claim_C2_parse_failure "Weekly report, no totals".data).1.mp (by rfl)

/-- Claim C3 counterexample: a text that contains
`TOTAL HOURS: 37:15:45` but whose first total-hours match is an earlier
occurrence; `parseTogglPdf` returns that earlier value 11:11:11, not
37:15:45, so the claim fails as stated. -/
theorem claim_C3_counterexample :
    listContains "TOTAL HOURS: 37:15:45".data
      "TOTAL HOURS: 11:11:11TOTAL HOURS: 37:15:45".data = true ∧
    (parseTogglText "TOTAL HOURS: 11:11:11TOTAL HOURS: 37:15:45".data).toOption.map
      (fun td => (td.hours, td.minutes, td.seconds)) = some (11, 11, 11) ∧
    (parseTogglText "TOTAL HOURS: 11:11:11TOTAL HOURS: 37:15:45".data).toOption.map
      (fun td => (td.hours, td.minutes, td.seconds)) ≠ some (37, 15, 45) :=
  ⟨by decide, by decide, by decide⟩

/-- Claim C3 (amended): for every extracted text in which the first
occurrence of the total-duration pattern is `TOTAL HOURS: 37:15:45`
(no position before it matches), the parse returns hours 37, minutes 15,
seconds 45; and whenever the duration pattern matches but no date-range
pattern occurs anywhere in the text, the parse succeeds with the
`this week` placeholder. -/
theorem claim_C3_parse_values :
    (∀ pre post : List Char,
      (∀ n, n < pre.length →
        matchTotalAt (pre.drop n ++ ("TOTAL HOURS: 37:15:45".data ++ post)) = none) →
      ∃ dr, parseTogglText (pre ++ ("TOTAL HOURS: 37:15:45".data ++ post)) =
        Except.ok ⟨37, 15, 45, dr⟩) ∧
    (∀ text h m s, findTotal text = some (h, m, s) → ¬ DatePat text →
      parseTogglText text = Except.ok ⟨h, m, s, "this week"⟩) := by
  constructor
  · intro pre post hnone
    have hm : matchTotalAt ("TOTAL HOURS: 37:15:45".data ++ post) =
        some (37, 15, 45) := by rfl
    have h2 : findTotal (pre ++ ("TOTAL HOURS: 37:15:45".data ++ post)) =
        some (37, 15, 45) := by
      rw [findTotal_append_of_none hnone]
      exact findTotal_cons_of_match hm
    refine ⟨dateRangeOf (pre ++ ("TOTAL HOURS: 37:15:45".data ++ post)), ?_⟩
    simp only [parseTogglText]
    rw [h2]
  · intro text h m s hft hnd
    have hdn := findDate_eq_none_of_not_datePat hnd
    simp [parseTogglText, hft, dateRangeOf, hdn]

/-- Witness for C3: the amended first part applied at a concrete text
with a two-character prefix before the sole occurrence. -/
theorem claim_C3_parse_values_witness :
    ∃ dr, parseTogglText ("xx".data ++ ("TOTAL HOURS: 37:15:45".data ++ "!".data)) =
      Except.ok ⟨37, 15, 45, dr⟩ :=
  claim_C3_parse_values.1 "xx".data "!".data (by decide)

/-! ## Master lemmas for the event handler -/

theorem handleMessage_silent (cfg : Config) (fridayOnly : Bool) (day : Nat)
    (eff : Effects) (ev : MessageEvent) (st : TrackerState)
    (h : ev.files.find? isPdfFile = none ∨
      ∃ f, ev.files.find? isPdfFile = some f ∧ isTogglExport f.name = false) :
    handleMessage cfg fridayOnly day eff ev st = (st, []) := by
  cases he : ev.files.isEmpty with
  | true => simp [handleMessage, he]
  | false =>
    rcases h with h | ⟨f, hf, hrec⟩
    · simp [handleMessage, he, h]
    · simp [handleMessage, he, hf, hrec]

/-- Either a handler run leaves the tracker untouched, or the HR post
succeeded after a successful download and parse, the tracker became
satisfied with the timestamp, and the first delivered post went to
HR. -/
theorem handleMessage_spec (cfg : Config) (fridayOnly : Bool) (day : Nat)
    (eff : Effects) (ev : MessageEvent) (st : TrackerState) :
    (handleMessage cfg fridayOnly day eff ev st).1 = st ∨
    (eff.hrPostError = none ∧
     (∃ buf, eff.download = Except.ok buf ∧
       ∃ td, parseTogglPdf eff.extract buf = Except.ok td) ∧
     (handleMessage cfg fridayOnly day eff ev st).1 =
       ⟨true, some eff.now⟩ ∧
     ∃ msg rest, (handleMessage cfg fridayOnly day eff ev st).2 =
       ⟨cfg.hrUserId, msg⟩ :: rest) := by
  cases he : ev.files.isEmpty with
  | true =>
    left
    simp [handleMessage, he]
  | false =>
    cases hf : ev.files.find? isPdfFile with
    | none =>
      left
      simp [handleMessage, he, hf]
    | some f =>
      cases hrec : isTogglExport f.name with
      | false =>
        left
        simp [handleMessage, he, hf, hrec]
      | true =>
        cases hfri : fridayOnly && !(isFriday day) with
        | true =>
          left
          simp [handleMessage, he, hf, hrec, hfri]
        | false =>
          cases hdl : eff.download with
          | error e =>
            left
            simp [handleMessage, he, hf, hrec, hfri, hdl]
          | ok buf =>
            cases hp : parseTogglPdf eff.extract buf with
            | error e =>
              left
              simp [handleMessage, he, hf, hrec, hfri, hdl, hp]
            | ok td =>
              cases hpe : eff.hrPostError with
              | some e =>
                left
                simp [handleMessage, he, hf, hrec, hfri, hdl, hp, hpe]
              | none =>
                right
                refine ⟨rfl, ⟨buf, rfl, td, hp⟩, ?_, ?_⟩
                · simp [handleMessage, he, hf, hrec, hfri, hdl, hp, hpe]
                · exact ⟨formatTimeMessage cfg.employeeName
                      (roundToNearestMinute td.hours td.minutes td.seconds)
                      td.dateRange,
                    [⟨ev.channel, "I\x27ve forwarded " ++ cfg.employeeName ++
                      "\x27s time to Erickia:\n> " ++
                      formatTimeMessage cfg.employeeName
                        (roundToNearestMinute td.hours td.minutes td.seconds)
                        td.dateRange⟩],
                    by simp [handleMessage, he, hf, hrec, hfri, hdl, hp, hpe]⟩

theorem find?_first {α : Type} {p : α → Bool} {l : List α} {a : α}
    (h : l.find? p = some a) :
    p a = true ∧ ∃ l1 l2, l = l1 ++ a :: l2 ∧ ∀ g ∈ l1, p g = false := by
  induction l with
  | nil => simp [List.find?] at h
  | cons b l ih =>
    cases hpb : p b with
    | true =>
      simp [List.find?, hpb] at h
      subst h
      exact ⟨hpb, [], l, rfl, by simp⟩
    | false =>
      simp only [List.find?, hpb] at h
      obtain ⟨hp, l1, l2, hl, hall⟩ := ih h
      refine ⟨hp, b :: l1, l2, by rw [List.cons_append, ← hl], ?_⟩
      intro g hg
      rcases List.mem_cons.mp hg with rfl | hg2
      · exact hpb
      · exact hall g hg2

/-- Claim C6 counterexample: the extracted text contains both
`TOTAL HOURS: 5:45:10` and the date range, but an earlier total-hours
occurrence wins the first match, so the relayed message is the 11h 11m
one and the claimed message is never sent; the claim fails as stated. -/
theorem claim_C6_counterexample :
    listContains "TOTAL HOURS: 5:45:10".data
      "TOTAL HOURS: 11:11:11TOTAL HOURS: 5:45:10 01/05/2024 - 01/11/2024".data = true ∧
    listContains "01/05/2024 - 01/11/2024".data
      "TOTAL HOURS: 11:11:11TOTAL HOURS: 5:45:10 01/05/2024 - 01/11/2024".data = true ∧
    (handleMessage ⟨"Roxie", "HR"⟩ false 5
        ⟨Except.ok [], fun _ =>
          Except.ok "TOTAL HOURS: 11:11:11TOTAL HOURS: 5:45:10 01/05/2024 - 01/11/2024",
         none, 0⟩
        ⟨[⟨"Toggl_Summary_2024.pdf", "application/pdf"⟩], "C"⟩
        initialTracker).2.head? =
      some ⟨"HR", "Roxie\x27s time for week of 01/05/2024 - 01/11/2024: *11 hours 11 minutes*"⟩ ∧
    Post.mk "HR" "Roxie\x27s time for week of 01/05/2024 - 01/11/2024: *5 hours 45 minutes*" ∉
      (handleMessage ⟨"Roxie", "HR"⟩ false 5
        ⟨Except.ok [], fun _ =>
          Except.ok "TOTAL HOURS: 11:11:11TOTAL HOURS: 5:45:10 01/05/2024 - 01/11/2024",
         none, 0⟩
        ⟨[⟨"Toggl_Summary_2024.pdf", "application/pdf"⟩], "C"⟩
        initialTracker).2 :=
  ⟨by decide, by decide, by decide, by decide⟩

/-- Claim C6 (amended): under the default employee name `Roxie` and a
permitted processing day, an event carrying the file
`Toggl_Summary_2024.pdf` whose extracted text has a total-hours match
yielding 5:45:10 and a date-range match yielding
`01/05/2024 - 01/11/2024` results in the relayed message being exactly
the claimed string (10 seconds round down) and in the tracker becoming
satisfied. -/
theorem claim_C6_end_to_end (cfg : Config) (fridayOnly : Bool) (day : Nat)
    (eff : Effects) (ev : MessageEvent) (st : TrackerState) (f : SlackFile)
    (buf : List Nat) (text : String)
    (hname : cfg.employeeName = "Roxie")
    (hfiles : ev.files = [f])
    (hfname : f.name = "Toggl_Summary_2024.pdf")
    (hday : (fridayOnly && !(isFriday day)) = false)
    (hdl : eff.download = Except.ok buf)
    (hex : eff.extract buf = Except.ok text)
    (hft : findTotal text.data = some (5, 45, 10))
    (hfd : findDate text.data = some ("01/05/2024".data, "01/11/2024".data))
    (hpost : eff.hrPostError = none) :
    handleMessage cfg fridayOnly day eff ev st =
      (⟨true, some eff.now⟩,
       [⟨cfg.hrUserId,
         "Roxie\x27s time for week of 01/05/2024 - 01/11/2024: *5 hours 45 minutes*"⟩,
        ⟨ev.channel,
         "I\x27ve forwarded Roxie\x27s time to Erickia:\n> Roxie\x27s time for week of 01/05/2024 - 01/11/2024: *5 hours 45 minutes*"⟩]) := by
  have hpdf : isPdfFile f = true := by
    rw [isPdfFile, hfname,
      (by decide : isSuffixL ".pdf".data (jsLower "Toggl_Summary_2024.pdf".data) = true)]
    exact Bool.or_true _
  have hrec : isTogglExport f.name = true := by
    rw [hfname]
    decide
  have hne : ev.files.isEmpty = false := by
    rw [hfiles]
    rfl
  have hfind : ev.files.find? isPdfFile = some f := by
    rw [hfiles]
    simp [List.find?, hpdf]
  have hparse : parseTogglPdf eff.extract buf =
      Except.ok ⟨5, 45, 10, "01/05/2024 - 01/11/2024"⟩ := by
    simp only [parseTogglPdf, hex, parseTogglText, hft, dateRangeOf, hfd]
    rfl
  simp [handleMessage, hne, hfind, hrec, hday, hdl, hparse, hpost, hname,
    roundToNearestMinute, formatTimeMessage]
  exact ⟨rfl, rfl⟩

/-- Witness for C6: the amended theorem at a fully concrete event. -/
theorem claim_C6_end_to_end_witness :
    handleMessage ⟨"Roxie", "HR"⟩ true 5
        ⟨Except.ok [0], fun _ =>
          Except.ok "01/05/2024 - 01/11/2024 TOTAL HOURS: 5:45:10", none, 42⟩
        ⟨[⟨"Toggl_Summary_2024.pdf", "application/pdf"⟩], "C"⟩
        initialTracker =
      (⟨true, some 42⟩,
       [⟨"HR", "Roxie\x27s time for week of 01/05/2024 - 01/11/2024: *5 hours 45 minutes*"⟩,
        ⟨"C", "I\x27ve forwarded Roxie\x27s time to Erickia:\n> Roxie\x27s time for week of 01/05/2024 - 01/11/2024: *5 hours 45 minutes*"⟩]) :=
  claim_C6_end_to_end _ true 5 _ _ _ _ [0] _ rfl rfl rfl (by decide) rfl rfl
    (by rfl) (by rfl) rfl

/-- Claim C7: the intake gate is silent (no posts, no processing) on an
event with no files, with no pdf attachment, or with an unrecognized
candidate filename; with the day policy enabled on a non-matching day a
recognized report is instead rejected with the visible notice. -/
theorem claim_C7_intake_gate (cfg : Config) (fridayOnly : Bool) (day : Nat)
    (eff : Effects) (ev : MessageEvent) (st : TrackerState) :
    (ev.files = [] → handleMessage cfg fridayOnly day eff ev st = (st, [])) ∧
    ((∀ f ∈ ev.files, isPdfFile f = false) →
      handleMessage cfg fridayOnly day eff ev st = (st, [])) ∧
    (∀ f, ev.files.find? isPdfFile = some f → isTogglExport f.name = false →
      handleMessage cfg fridayOnly day eff ev st = (st, [])) ∧
    (∀ f, ev.files.find? isPdfFile = some f → isTogglExport f.name = true →
      fridayOnly = true → isFriday day = false →
      handleMessage cfg fridayOnly day eff ev st =
        (st, [⟨ev.channel, "I received the timesheet, but I only process on Fridays!"⟩])) := by
  refine ⟨?_, ?_, ?_, ?_⟩
  · intro h
    refine handleMessage_silent _ _ _ _ _ _ (Or.inl ?_)
    rw [h]
    rfl
  · intro h
    refine handleMessage_silent _ _ _ _ _ _ (Or.inl ?_)
    refine List.find?_eq_none.mpr fun x hx hc => ?_
    rw [h x hx] at hc
    cases hc
  · intro f hf hrec
    exact handleMessage_silent _ _ _ _ _ _ (Or.inr ⟨f, hf, hrec⟩)
  · intro f hf hrec hfri hnfri
    have hne : ev.files.isEmpty = false := by
      cases hl : ev.files with
      | nil =>
        rw [hl] at hf
        simp [List.find?] at hf
      | cons a l => rfl
    simp [handleMessage, hne, hf, hrec, hfri, hnfri]

/-- Witness for C7: a recognized report arriving on a Wednesday with the
policy enabled draws the visible notice. -/
theorem claim_C7_intake_gate_witness :
    handleMessage ⟨"Roxie", "HR"⟩ true 3
        ⟨Except.ok [], fun _ => Except.ok "TOTAL HOURS: 1:00:00", none, 0⟩
        ⟨[⟨"Toggl_Summary_2024.pdf", "application/pdf"⟩], "C"⟩
        initialTracker =
      (initialTracker,
       [⟨"C", "I received the timesheet, but I only process on Fridays!"⟩]) :=
  (claim_C7_intake_gate _ _ _ _ _ _).2.2.2
    ⟨"Toggl_Summary_2024.pdf", "application/pdf"⟩ (by rfl) (by decide) rfl (by decide)

/-- Claim C8: the tracker starts PENDING, reset yields PENDING from any
state and is idempotent, the handler never clears a satisfied tracker,
and a successful relay (HR post delivered first) is the only transition
to SATISFIED, recording the timestamp. -/
theorem claim_C8_tracker (cfg : Config) (fridayOnly : Bool) (day : Nat)
    (eff : Effects) (ev : MessageEvent) (st : TrackerState) :
    initialTracker.timesheetReceivedThisWeek = false ∧
    initialTracker.lastTimesheetDate = none ∧
    resetWeeklyTracker st = initialTracker ∧
    resetWeeklyTracker (resetWeeklyTracker st) = resetWeeklyTracker st ∧
    (st.timesheetReceivedThisWeek = true →
      (handleMessage cfg fridayOnly day eff ev st).1.timesheetReceivedThisWeek = true) ∧
    ((handleMessage cfg fridayOnly day eff ev st).1 ≠ st →
      (handleMessage cfg fridayOnly day eff ev st).1 = ⟨true, some eff.now⟩ ∧
      ∃ msg rest, (handleMessage cfg fridayOnly day eff ev st).2 =
        ⟨cfg.hrUserId, msg⟩ :: rest) := by
  refine ⟨rfl, rfl, rfl, rfl, ?_, ?_⟩
  · intro hrec
    rcases handleMessage_spec cfg fridayOnly day eff ev st with h | ⟨_, _, h, _⟩
    · rw [h]
      exact hrec
    · rw [h]
  · intro hne
    rcases handleMessage_spec cfg fridayOnly day eff ev st with h | ⟨_, _, h1, h2⟩
    · exact absurd h hne
    · exact ⟨h1, h2⟩

/-- Witness for C8: a satisfied tracker stays satisfied through a
handler run whose download fails. -/
theorem claim_C8_tracker_witness :
    (handleMessage ⟨"Roxie", "HR"⟩ false 5
        ⟨Except.error "network", fun _ => Except.error "bad pdf", none, 0⟩
        ⟨[⟨"Toggl_Summary_2024.pdf", "application/pdf"⟩], "C"⟩
        ⟨true, some 3⟩).1.timesheetReceivedThisWeek = true :=
  (claim_C8_tracker ⟨"Roxie", "HR"⟩ false 5
    ⟨Except.error "network", fun _ => Except.error "bad pdf", none, 0⟩
    ⟨[⟨"Toggl_Summary_2024.pdf", "application/pdf"⟩], "C"⟩
    ⟨true, some 3⟩).2.2.2.2.1 rfl

/-- Claim C9: a failing download, a failing text extraction, a failing
duration parse, or a failing delivery to HR leaves the tracker state of
that event unchanged. -/
theorem claim_C9_failures (cfg : Config) (fridayOnly : Bool) (day : Nat)
    (eff : Effects) (ev : MessageEvent) (st : TrackerState) :
    (∀ e, eff.download = Except.error e →
      (handleMessage cfg fridayOnly day eff ev st).1 = st) ∧
    (∀ buf e, eff.download = Except.ok buf → eff.extract buf = Except.error e →
      (handleMessage cfg fridayOnly day eff ev st).1 = st) ∧
    (∀ buf text, eff.download = Except.ok buf → eff.extract buf = Except.ok text →
      parseTogglText text.data =
        Except.error "Could not find TOTAL HOURS in the PDF" →
      (handleMessage cfg fridayOnly day eff ev st).1 = st) ∧
    (∀ e, eff.hrPostError = some e →
      (handleMessage cfg fridayOnly day eff ev st).1 = st) := by
  refine ⟨?_, ?_, ?_, ?_⟩
  · intro e he
    rcases handleMessage_spec cfg fridayOnly day eff ev st with h | ⟨_, ⟨buf, hdl, _⟩, _, _⟩
    · exact h
    · rw [he] at hdl
      cases hdl
  · intro buf e hdl hex
    rcases handleMessage_spec cfg fridayOnly day eff ev st with h | ⟨_, ⟨buf2, hdl2, td, hp2⟩, _, _⟩
    · exact h
    · rw [hdl] at hdl2
      injection hdl2 with hbuf
      subst hbuf
      simp [parseTogglPdf, hex] at hp2
  · intro buf text hdl hex hpt
    rcases handleMessage_spec cfg fridayOnly day eff ev st with h | ⟨_, ⟨buf2, hdl2, td, hp2⟩, _, _⟩
    · exact h
    · rw [hdl] at hdl2
      injection hdl2 with hbuf
      subst hbuf
      simp [parseTogglPdf, hex, hpt] at hp2
  · intro e he
    rcases handleMessage_spec cfg fridayOnly day eff ev st with h | ⟨hpe, _, _, _⟩
    · exact h
    · rw [he] at hpe
      cases hpe

/-- Witness for C9: a run whose HR delivery throws leaves the pending
tracker pending. -/
theorem claim_C9_failures_witness :
    (handleMessage ⟨"Roxie", "HR"⟩ false 5
        ⟨Except.ok [], fun _ => Except.ok "TOTAL HOURS: 1:00:00", some "rate limited", 0⟩
        ⟨[⟨"Toggl_Summary_2024.pdf", "application/pdf"⟩], "C"⟩
        initialTracker).1 = initialTracker :=
  (claim_C9_failures ⟨"Roxie", "HR"⟩ false 5
    ⟨Except.ok [], fun _ => Except.ok "TOTAL HOURS: 1:00:00", some "rate limited", 0⟩
    ⟨[⟨"Toggl_Summary_2024.pdf", "application/pdf"⟩], "C"⟩
    initialTracker).2.2.2 "rate limited" rfl

/-- Claim C10: the candidate report is the first attachment satisfying
the pdf test, in attachment order; an event whose first pdf has an
unrecognized name is silently rejected, regardless of later
attachments. -/
theorem claim_C10_first_pdf (cfg : Config) (fridayOnly : Bool) (day : Nat)
    (eff : Effects) (ev : MessageEvent) (st : TrackerState) :
    (∀ f, ev.files.find? isPdfFile = some f →
      isPdfFile f = true ∧
      ∃ l1 l2, ev.files = l1 ++ f :: l2 ∧ ∀ g ∈ l1, isPdfFile g = false) ∧
    (∀ f, ev.files.find? isPdfFile = some f → isTogglExport f.name = false →
      handleMessage cfg fridayOnly day eff ev st = (st, [])) :=
  ⟨fun _ hf => find?_first hf,
   fun f hf hrec => handleMessage_silent _ _ _ _ _ _ (Or.inr ⟨f, hf, hrec⟩)⟩

/-- Witness for C10: the first pdf attachment has an unrecognized name,
a later attachment a recognized one; the event is silently dropped. -/
theorem claim_C10_first_pdf_witness :
    handleMessage ⟨"Roxie", "HR"⟩ false 5
        ⟨Except.ok [], fun _ => Except.ok "TOTAL HOURS: 1:00:00", none, 0⟩
        ⟨[⟨"Report_Jan.pdf", "application/pdf"⟩,
          ⟨"Toggl_Summary.pdf", "application/pdf"⟩], "C"⟩
        initialTracker =
      (initialTracker, []) ∧
    isTogglExport "Toggl_Summary.pdf" = true :=
  ⟨(claim_C10_first_pdf ⟨"Roxie", "HR"⟩ false 5
      ⟨Except.ok [], fun _ => Except.ok "TOTAL HOURS: 1:00:00", none, 0⟩
      ⟨[⟨"Report_Jan.pdf", "application/pdf"⟩,
        ⟨"Toggl_Summary.pdf", "application/pdf"⟩], "C"⟩
      initialTracker).2
    ⟨"Report_Jan.pdf", "application/pdf"⟩ (by rfl) (by decide),
   by decide⟩

end TimesheetBot

